import Mathlib

/-!
Verification of the two components of this repository against their
design description:

* `LLM.chat` / `LLM.chat_stream` from `src/aig/patches/llm.py`
  (streaming chat-completion client with a retry loop), and
* `convert_markdown_to_docx` from `src/scripts/convert_guides_to_docx.py`
  (a line-based Markdown to document converter).

Both are embedded shallowly: a Python `str` is a `List Char` (Python
strings are sequences of code points), the streaming transport is a
function from the request index to the outcome of that request, and the
per-line loop of the converter is a state-passing function that can also
surface the run-time exception the Python loop would raise.
-/

/-! ### Python string primitives -/

/-- The characters stripped by the Python `str.strip`/`str.rstrip` methods
(ASCII whitespace; the behaviours verified here do not depend on the
further Unicode space classes Python also strips). -/
def isPySpace (c : Char) : Bool :=
  c == ' ' || c == '\t' || c == '\n' || c == '\r' || c == '\x0b' || c == '\x0c'

/-- Python `s.lstrip()`. -/
def pyLstrip (s : List Char) : List Char := s.dropWhile isPySpace

/-- Python `s.rstrip()`. -/
def pyRstrip (s : List Char) : List Char := (s.reverse.dropWhile isPySpace).reverse

/-- Python `s.strip()`. -/
def pyStrip (s : List Char) : List Char := pyLstrip (pyRstrip s)

/-- Python `pat in s` (substring containment). -/
def containsSub : List Char → List Char → Bool
  | [], pat => pat.isPrefixOf []
  | a :: rest, pat => pat.isPrefixOf (a :: rest) || containsSub rest pat

/-- The part of `s` after the first occurrence of `sep`
(Python `s.split(sep, 1)[1]`); `none` when `sep` does not occur. -/
def afterFirstSep : List Char → List Char → Option (List Char)
  | [], sep => if sep.isPrefixOf [] then some (([] : List Char).drop sep.length) else none
  | a :: rest, sep =>
    if sep.isPrefixOf (a :: rest) then some ((a :: rest).drop sep.length)
    else afterFirstSep rest sep

/-- Python `s.replace(old, new)` for non-empty `old` (the only case used
here): all non-overlapping occurrences are replaced, scanning left to
right.  The fuel argument makes the recursion structural; `pyReplace`
supplies fuel `s.length`, which is exact because every step consumes at
least one character of `s`. -/
def replaceFuel (old new : List Char) : Nat → List Char → List Char
  | 0, s => s
  | _ + 1, [] => []
  | fuel + 1, c :: rest =>
    if old.isPrefixOf (c :: rest) && !old.isEmpty then
      new ++ replaceFuel old new fuel ((c :: rest).drop old.length)
    else
      c :: replaceFuel old new fuel rest

/-- Python `s.replace(old, new)` (for non-empty `old`). -/
def pyReplace (s old new : List Char) : List Char :=
  replaceFuel old new s.length s

/-- Python `s.endswith(suffix)`. -/
def pyEndswith (s suffix : List Char) : Bool := suffix.isSuffixOf s

/-! ### ChatClient: embedding of `LLM` (`src/aig/patches/llm.py`) -/

/-- The `delta` object of the first choice of a streamed chunk; `content` is
`none` when the attribute is missing or `None`. -/
structure ChunkDelta where
  content : Option (List Char)
deriving DecidableEq, Repr

/-- One element of the `choices` list of a chunk; `delta` is `none` when the
attribute is missing or falsy. -/
structure ChunkChoice where
  delta : Option ChunkDelta
deriving DecidableEq, Repr

/-- One streamed transport event.  `choices = none` models a chunk whose
`choices` attribute is missing, `None`, or not a list. -/
structure Chunk where
  choices : Option (List ChunkChoice)
deriving DecidableEq, Repr

/-- Embedding of `LLM.chat_stream` applied to the chunk sequence of one streaming
response: it yields, in arrival order, exactly the non-empty `content`
fields found on the delta of the first choice, silently skipping chunks with
missing `choices`, an empty `choices` list, a missing delta, or missing
or empty content. -/
def chat_stream (chunks : List Chunk) : List (List Char) :=
  chunks.filterMap fun ch =>
    match ch.choices with
    | none => none
    | some [] => none
    | some (choice :: _) =>
      match choice.delta with
      | none => none
      | some d =>
        match d.content with
        | none => none
        | some s => if s = [] then none else some s

/-- The outcome of one call to the streaming transport: the request
either raises, or delivers a list of chunks. -/
inductive StreamResult where
  | err : StreamResult
  | ok (chunks : List Chunk) : StreamResult

/-- How a call of `LLM.chat` ends: it returns a string, or a transport
exception propagates out of it. -/
inductive ChatOutcome where
  | returns (s : List Char) : ChatOutcome
  | raises : ChatOutcome
deriving DecidableEq, Repr

/-- Observable trace of one `LLM.chat` call: its outcome, the number of
streaming requests it issued, and the number of 1.3-time-unit sleeps it
performed. -/
structure ChatTrace where
  outcome : ChatOutcome
  requests : Nat
  sleeps : Nat
deriving DecidableEq, Repr

/-- The literal returned by `LLM.chat` after exhausting its retries. -/
def failMsg : List Char :=
  "LLM connection failed after 5 retries. Model output is empty. Please wait 1 minute and try again.".data

/-- The `while True` retry loop of `LLM.chat`.  `ret` is the accumulated
response (never reset between attempts, faithfully to the source),
`retry` the retry counter, `k` the number of requests issued so far.
`budget` is `6 - retry`: pure fuel that makes the recursion structural;
the loop body returns once `retry + 1 > 5`, so from the initial call the
fuel is never exhausted.  A transport exception propagates (the source
has no `try` around the stream). -/
def chatAux (attempts : Nat → StreamResult) :
    Nat → List Char → Nat → Nat → Nat → ChatTrace
  | _, _, _, 0, sleeps => ⟨ChatOutcome.raises, 0, sleeps⟩
  | k, ret, retry, budget + 1, sleeps =>
    match attempts k with
    | StreamResult.err => ⟨ChatOutcome.raises, k + 1, sleeps⟩
    | StreamResult.ok chunks =>
      let ret' := ret ++ (chat_stream chunks).flatten
      if ret' = [] then
        if retry + 1 > 5 then ⟨ChatOutcome.returns failMsg, k + 1, sleeps + 1⟩
        else chatAux attempts (k + 1) ret' (retry + 1) budget (sleeps + 1)
      else ⟨ChatOutcome.returns ret', k + 1, sleeps⟩

/-- Embedding of `LLM.chat` on a transport whose `k`-th streaming request behaves as
`attempts k`. -/
def chat (attempts : Nat → StreamResult) : ChatTrace :=
  chatAux attempts 0 [] 0 6 0

/-- The content field `chat_stream` inspects on one chunk (the first
choice, then delta, then content); `none` when any link of the chain is
missing. -/
def chunkContent (ch : Chunk) : Option (List Char) :=
  match ch.choices with
  | some (choice :: _) =>
    match choice.delta with
    | some d => d.content
    | none => none
  | _ => none

deriving instance DecidableEq for Except

/-! ### Converter: embedding of `convert_markdown_to_docx`
(`src/scripts/convert_guides_to_docx.py`) -/

/-- One element emitted into the output document. -/
inductive Elem where
  | heading (level : Nat) (text : List Char) : Elem
  | codeParagraph (text style fontName : List Char) (fontSizePt : Nat) : Elem
  | bullet (text : List Char) : Elem
  | numbered (text : List Char) : Elem
  | plain (text : List Char) : Elem
deriving DecidableEq, Repr

/-- A run-time exception of the Python converter loop.
`runsIndexError`: `p.runs[0]` on a paragraph created from empty text
(python-docx adds no run for empty text, so `p.runs` is `[]`).
`splitIndexError`: `split(". ", 1)[1]` when `". "` does not occur
(unreachable under the guarding regular expression, proved below). -/
inductive ConvError where
  | runsIndexError : ConvError
  | splitIndexError : ConvError
deriving DecidableEq, Repr

/-- The regular expression test `re.match(r"^\d+\. ", s)` as a Boolean: a non-empty leading digit
run immediately followed by `". "`.  No backtracking case is lost: a
shorter-than-maximal digit run is followed by a digit, which is not
`'.'`, so the regular expression matches exactly when the maximal
leading digit run is non-empty and followed by `". "`. -/
def numberedMatch (s : List Char) : Bool :=
  !(s.takeWhile Char.isDigit).isEmpty &&
    ". ".data.isPrefixOf (s.drop (s.takeWhile Char.isDigit).length)

/-- One iteration of the per-line loop of `convert_markdown_to_docx`:
from the code-block state and the raw line, the next state and the
emitted elements, or the exception the Python loop raises on that line.
Inside a code block, an empty (after `rstrip`) line raises: the code does
`p.runs[0]` after `doc.add_paragraph(line)`, and python-docx creates no
run for empty text. -/
def processLine (inCode : Bool) (rawLine : List Char) :
    Except ConvError (Bool × List Elem) :=
  let line := pyRstrip rawLine
  if "```".data.isPrefixOf line then Except.ok (!inCode, [])
  else if inCode then
    if line = [] then Except.error ConvError.runsIndexError
    else Except.ok (inCode,
      [Elem.codeParagraph line "No Spacing".data "Courier New".data 10])
  else if "# ".data.isPrefixOf line then Except.ok (inCode, [Elem.heading 1 (line.drop 2)])
  else if "## ".data.isPrefixOf line then Except.ok (inCode, [Elem.heading 2 (line.drop 3)])
  else if "### ".data.isPrefixOf line then Except.ok (inCode, [Elem.heading 3 (line.drop 4)])
  else if "#### ".data.isPrefixOf line then Except.ok (inCode, [Elem.heading 4 (line.drop 5)])
  else if "- ".data.isPrefixOf (pyStrip line) || "* ".data.isPrefixOf (pyStrip line) then
    Except.ok (inCode, [Elem.bullet ((pyStrip line).drop 2)])
  else if numberedMatch (pyStrip line) then
    match afterFirstSep (pyStrip line) ". ".data with
    | some t => Except.ok (inCode, [Elem.numbered t])
    | none => Except.error ConvError.splitIndexError
  else if pyStrip line = [] then Except.ok (inCode, [])
  else Except.ok (inCode, [Elem.plain line])

/-- The per-file line loop: threads the code-block state through the
lines and concatenates the emitted elements, stopping at the first
exception. -/
def processLines (inCode : Bool) : List (List Char) → Except ConvError (List Elem)
  | [] => Except.ok []
  | l :: rest =>
    match processLine inCode l with
    | Except.error e => Except.error e
    | Except.ok (st, es) =>
      match processLines st rest with
      | Except.error e => Except.error e
      | Except.ok es' => Except.ok (es ++ es')

/-- Conversion of the lines of one file, starting outside any code block
(`in_code_block = False` at the top of the per-file loop). -/
def convertLines (lines : List (List Char)) : Except ConvError (List Elem) :=
  processLines false lines

/-- The output filename computed by the converter:
`filename.replace(".md", ".docx")`. -/
def docxName (filename : List Char) : List Char :=
  pyReplace filename ".md".data ".docx".data

/-- The filter selecting which directory entries are converted:
`filename.endswith(".md")`. -/
def isMdFilename (filename : List Char) : Bool :=
  pyEndswith filename ".md".data

/-- From the words of the spec for the fence rule: a line consisting of three
or more backticks and nothing else (`Char.ofNat 96` is the backtick). -/
def specPureFenceLine (s : List Char) : Bool :=
  decide (3 ≤ s.length) && s.all (fun c => c == Char.ofNat 96)

/-- From the words of the spec for output naming: the trailing `".md"`
extension replaced by `".docx"`, nothing else altered. -/
def specDocxName (s : List Char) : List Char :=
  s.take (s.length - 3) ++ ".docx".data

/-- The Markdown heading marker of level `n`: `n` hash characters
followed by one space. -/
def hashMark (n : Nat) : List Char := List.replicate n '#' ++ [' ']

/-! ### General lemmas about the ChatClient embedding -/

/-- Lemma: `chat_stream` expressed through `chunkContent`. -/
theorem chat_stream_eq_filterMap (chunks : List Chunk) :
    chat_stream chunks = chunks.filterMap (fun ch =>
      match chunkContent ch with
      | none => none
      | some s => if s = [] then none else some s) := by
  unfold chat_stream
  congr 1
  funext ch
  rcases ch with ⟨choices⟩
  rcases choices with _ | ⟨_ | ⟨⟨delta⟩, cs⟩⟩
  · rfl
  · rfl
  · rcases delta with _ | ⟨⟨content⟩⟩
    · rfl
    · rcases content with _ | s <;> rfl

/-- Every fragment yielded by `chat_stream` is non-empty. -/
theorem mem_chat_stream_ne_nil {chunks : List Chunk} {s : List Char}
    (h : s ∈ chat_stream chunks) : s ≠ [] := by
  rw [chat_stream_eq_filterMap] at h
  rw [List.mem_filterMap] at h
  obtain ⟨ch, _, hch⟩ := h
  rcases hc : chunkContent ch with _ | s'
  · rw [hc] at hch; exact absurd hch (by simp)
  · rw [hc] at hch
    by_cases hs : s' = []
    · simp [hs] at hch
    · simp [hs] at hch
      exact hch ▸ hs

/-- A transport that yields some non-empty fragment makes `chat_stream`
non-empty. -/
theorem chat_stream_ne_nil {chunks : List Chunk} {ch : Chunk} {s : List Char}
    (hch : ch ∈ chunks) (hs : chunkContent ch = some s) (hne : s ≠ []) :
    chat_stream chunks ≠ [] := by
  rw [chat_stream_eq_filterMap]
  intro hnil
  rw [List.filterMap_eq_nil_iff] at hnil
  have := hnil ch hch
  rw [hs] at this
  simp [hne] at this

/-- A transport whose every fragment is empty or missing makes
`chat_stream` empty. -/
theorem chat_stream_eq_nil {chunks : List Chunk}
    (h : ∀ ch ∈ chunks, ∀ s, chunkContent ch = some s → s = []) :
    chat_stream chunks = [] := by
  rw [chat_stream_eq_filterMap]
  rw [List.filterMap_eq_nil_iff]
  intro ch hch
  rcases hc : chunkContent ch with _ | s
  · rfl
  · simp [h ch hch s hc]

/-- Concatenating a non-empty list of non-empty fragments is non-empty. -/
theorem flatten_ne_nil {l : List (List Char)} (hl : l ≠ [])
    (h : ∀ s ∈ l, s ≠ []) : l.flatten ≠ [] := by
  cases l with
  | nil => exact absurd rfl hl
  | cons a t =>
    rw [List.flatten_cons]
    intro hc
    rw [List.append_eq_nil] at hc
    exact h a (List.mem_cons_self a t) hc.1

/-- One empty attempt advances the retry loop (while the retry ceiling
is not yet reached): one more request, one more 1.3-unit sleep. -/
theorem chatAux_empty_step (attempts : Nat → StreamResult)
    (k retry budget sleeps : Nat) (chunks : List Chunk)
    (hk : attempts k = StreamResult.ok chunks)
    (hempty : chat_stream chunks = []) (hretry : retry + 1 ≤ 5) :
    chatAux attempts k [] retry (budget + 1) sleeps =
      chatAux attempts (k + 1) [] (retry + 1) budget (sleeps + 1) := by
  have h5 : ¬ retry + 1 > 5 := by omega
  simp [chatAux, hk, hempty, h5]

/-- The sixth consecutive empty attempt makes the loop give up and
return the fixed failure message. -/
theorem chatAux_giveup_step (attempts : Nat → StreamResult)
    (k budget sleeps : Nat) (chunks : List Chunk)
    (hk : attempts k = StreamResult.ok chunks)
    (hempty : chat_stream chunks = []) :
    chatAux attempts k [] 5 (budget + 1) sleeps =
      ⟨ChatOutcome.returns failMsg, k + 1, sleeps + 1⟩ := by
  simp [chatAux, hk, hempty]

/-! ### Claims about the ChatClient -/

/-- Claim C1: for every conversation for which the streaming transport
yields at least one non-empty text fragment, `chat` returns exactly the
concatenation of all non-empty fragments in arrival order
(`(chat_stream chunks).flatten`), issuing exactly one streaming request
and performing no sleep, hence no retry. -/
theorem chat_success_no_retry (attempts : Nat → StreamResult) (chunks : List Chunk)
    (h0 : attempts 0 = StreamResult.ok chunks)
    (hne : ∃ ch ∈ chunks, ∃ s, chunkContent ch = some s ∧ s ≠ []) :
    chat attempts =
      ⟨ChatOutcome.returns (chat_stream chunks).flatten, 1, 0⟩ := by
  obtain ⟨ch, hch, s, hs, hsne⟩ := hne
  have hstream : chat_stream chunks ≠ [] := chat_stream_ne_nil hch hs hsne
  have hflat : (chat_stream chunks).flatten ≠ [] :=
    flatten_ne_nil hstream (fun s hs => mem_chat_stream_ne_nil hs)
  simp [chat, chatAux, h0, hflat]

/-- Witness for C1 at a transport that streams the single fragment
`"hi"`. -/
theorem chat_success_no_retry_witness :
    chat (fun _ => StreamResult.ok [⟨some [⟨some ⟨some "hi".data⟩⟩]⟩]) =
      ⟨ChatOutcome.returns "hi".data, 1, 0⟩ := by
  have h := chat_success_no_retry
    (fun _ => StreamResult.ok [⟨some [⟨some ⟨some "hi".data⟩⟩]⟩])
    [⟨some [⟨some ⟨some "hi".data⟩⟩]⟩] rfl
    ⟨⟨some [⟨some ⟨some "hi".data⟩⟩]⟩, by simp, "hi".data, rfl, by decide⟩
  exact h.trans (by decide)

/-- Claim C2: if every streaming attempt yields only empty-string
fragments or no fragments at all, `chat` issues 6 requests in total
(the first attempt plus exactly 5 retries), sleeps 1.3 time-units after
each failed attempt (so in particular between consecutive attempts), and
returns the fixed human-readable failure string instead of raising.  The
hypothesis covers streams of empty-string fragments and streams yielding
nothing alike, so both are treated identically. -/
theorem chat_all_empty (attempts : Nat → StreamResult)
    (h : ∀ k, k < 6 → ∃ chunks, attempts k = StreamResult.ok chunks ∧
          ∀ ch ∈ chunks, ∀ s, chunkContent ch = some s → s = []) :
    chat attempts = ⟨ChatOutcome.returns failMsg, 6, 6⟩ := by
  obtain ⟨c0, h0, e0⟩ := h 0 (by omega)
  obtain ⟨c1, h1, e1⟩ := h 1 (by omega)
  obtain ⟨c2, h2, e2⟩ := h 2 (by omega)
  obtain ⟨c3, h3, e3⟩ := h 3 (by omega)
  obtain ⟨c4, h4, e4⟩ := h 4 (by omega)
  obtain ⟨c5, h5, e5⟩ := h 5 (by omega)
  have s0 := chat_stream_eq_nil e0
  have s1 := chat_stream_eq_nil e1
  have s2 := chat_stream_eq_nil e2
  have s3 := chat_stream_eq_nil e3
  have s4 := chat_stream_eq_nil e4
  have s5 := chat_stream_eq_nil e5
  simp [chat, chatAux, h0, h1, h2, h3, h4, h5, s0, s1, s2, s3, s4, s5]

/-- Witness for C2 at a transport that streams, on every attempt, one
chunk carrying the empty-string fragment. -/
theorem chat_all_empty_witness :
    chat (fun _ => StreamResult.ok [⟨some [⟨some ⟨some []⟩⟩]⟩]) =
      ⟨ChatOutcome.returns failMsg, 6, 6⟩ :=
  chat_all_empty (fun _ => StreamResult.ok [⟨some [⟨some ⟨some []⟩⟩]⟩])
    (fun _ _ => ⟨[⟨some [⟨some ⟨some []⟩⟩]⟩], rfl, by
      intro ch hch s hs
      simp at hch
      subst hch
      cases hs
      rfl⟩)

/-- Counterexample to claim C3 as stated: on a transport whose streaming
request raises, `chat` propagates the error after a single request — it
does not retry and does not degrade to the failure string. -/
theorem chat_err_counterexample :
    chat (fun _ => StreamResult.err) = ⟨ChatOutcome.raises, 1, 0⟩ ∧
    (chat (fun _ => StreamResult.err)).outcome ≠ ChatOutcome.returns failMsg :=
  ⟨rfl, by decide⟩

/-- Claim C3 as amended: a transport-level error raised by the streaming
request is not handled like an empty response — it propagates to the
caller immediately, with no retry and no sleep. -/
theorem chat_err_propagates (attempts : Nat → StreamResult)
    (h : attempts 0 = StreamResult.err) :
    chat attempts = ⟨ChatOutcome.raises, 1, 0⟩ := by
  simp [chat, chatAux, h]

/-- Witness for the amended C3 at an always-raising transport. -/
theorem chat_err_propagates_witness :
    chat (fun _ => StreamResult.err) = ⟨ChatOutcome.raises, 1, 0⟩ :=
  chat_err_propagates (fun _ => StreamResult.err) rfl

/-- Every string the retry loop can return is non-empty: a non-empty
accumulated response, or the (non-empty) fixed failure message. -/
theorem chatAux_returns_ne_nil (attempts : Nat → StreamResult) :
    ∀ budget k ret retry sleeps s,
      (chatAux attempts k ret retry budget sleeps).outcome = ChatOutcome.returns s →
      s ≠ [] := by
  intro budget
  induction budget with
  | zero =>
    intro k ret retry sleeps s h
    simp [chatAux] at h
  | succ b ih =>
    intro k ret retry sleeps s h
    rw [chatAux] at h
    cases hk : attempts k with
    | err => rw [hk] at h; simp at h
    | ok chunks =>
      rw [hk] at h
      simp only at h
      by_cases he : ret ++ (chat_stream chunks).flatten = []
      · rw [if_pos he] at h
        by_cases hr : retry + 1 > 5
        · rw [if_pos hr] at h
          simp at h
          rw [← h]
          decide
        · rw [if_neg hr] at h
          exact ih _ _ _ _ _ h
      · rw [if_neg he] at h
        simp at h
        exact h ▸ he

/-- Claim C10: whatever the transport does, whenever `chat` returns a
string (rather than propagating a transport exception), that string is
non-empty — either a non-empty concatenation of fragments or the fixed
non-empty failure message. -/
theorem chat_never_returns_empty (attempts : Nat → StreamResult) (s : List Char)
    (h : (chat attempts).outcome = ChatOutcome.returns s) : s ≠ [] :=
  chatAux_returns_ne_nil attempts 6 0 [] 0 0 s h

/-- Witness for C10 at a transport that streams the fragment `"hi"`. -/
theorem chat_never_returns_empty_witness : "hi".data ≠ [] :=
  chat_never_returns_empty
    (fun _ => StreamResult.ok [⟨some [⟨some ⟨some "hi".data⟩⟩]⟩])
    "hi".data (by decide)

/-! ### General lemmas about the converter embedding -/

theorem dropWhile_dropWhile (p : Char → Bool) (l : List Char) :
    (l.dropWhile p).dropWhile p = l.dropWhile p := by
  induction l with
  | nil => rfl
  | cons a t ih =>
    by_cases h : p a = true
    · rw [List.dropWhile_cons, if_pos h, ih]
    · rw [List.dropWhile_cons, if_neg h, List.dropWhile_cons, if_neg h]

theorem pyRstrip_idem (s : List Char) : pyRstrip (pyRstrip s) = pyRstrip s := by
  simp only [pyRstrip, List.reverse_reverse, dropWhile_dropWhile]

/-- On an already right-stripped string, `strip` only strips the left. -/
theorem pyStrip_rstrip (s : List Char) :
    pyStrip (pyRstrip s) = pyLstrip (pyRstrip s) := by
  rw [pyStrip, pyRstrip_idem]

/-- When left-stripping leaves a non-empty string, the original string is
non-empty and its head is either stripped whitespace or the first kept
character. -/
theorem head_of_lstrip {l : List Char} {c : Char} {rest : List Char}
    (h : pyLstrip l = c :: rest) :
    ∃ a t, l = a :: t ∧ (isPySpace a = true ∨ a = c) := by
  cases l with
  | nil => simp [pyLstrip] at h
  | cons a t =>
    by_cases hp : isPySpace a = true
    · exact ⟨a, t, rfl, Or.inl hp⟩
    · refine ⟨a, t, rfl, Or.inr ?_⟩
      rw [pyLstrip, List.dropWhile_cons, if_neg hp] at h
      simp at h
      exact h.1

theorem isPrefixOf_cons_false {x a : Char} (xs t : List Char)
    (h : (x == a) = false) : (x :: xs).isPrefixOf (a :: t) = false := by
  simp [List.isPrefixOf, h]

theorem isPrefixOf_append_self (pre t : List Char) :
    pre.isPrefixOf (pre ++ t) = true := by
  induction pre with
  | nil => simp [List.isPrefixOf]
  | cons x xs ih => simp [List.isPrefixOf, ih]

theorem eq_append_drop_of_isPrefixOf {pre s : List Char}
    (h : pre.isPrefixOf s = true) : s = pre ++ s.drop pre.length := by
  induction pre generalizing s with
  | nil => simp
  | cons x xs ih =>
    cases s with
    | nil => simp [List.isPrefixOf] at h
    | cons a t =>
      simp only [List.isPrefixOf, Bool.and_eq_true, beq_iff_eq] at h
      obtain ⟨rfl, ht⟩ := h
      rw [List.length_cons, List.drop_succ_cons, List.cons_append]
      exact congrArg (List.cons x) (ih ht)

/-- A whitespace character never equals a non-whitespace one. -/
theorem pySpace_beq_false {x a : Char} (ha : isPySpace a = true)
    (hx : isPySpace x = false) : (x == a) = false := by
  rw [beq_eq_false_iff_ne]
  intro he
  subst he
  rw [hx] at ha
  simp at ha

/-- A digit never equals a non-digit. -/
theorem digit_beq_false {x a : Char} (ha : a.isDigit = true)
    (hx : x.isDigit = false) : (x == a) = false := by
  rw [beq_eq_false_iff_ne]
  intro he
  subst he
  rw [hx] at ha
  simp at ha

theorem takeWhile_isEmpty_false_head {p : Char → Bool} {s : List Char}
    (h : (s.takeWhile p).isEmpty = false) :
    ∃ c rest, s = c :: rest ∧ p c = true := by
  cases s with
  | nil => simp at h
  | cons a t =>
    by_cases hp : p a = true
    · exact ⟨a, t, rfl, hp⟩
    · rw [List.takeWhile_cons, if_neg hp] at h
      simp at h

/-- A pattern matching somewhere in a dropped suffix occurs in the
string. -/
theorem containsSub_of_drop {sep : List Char} (hsep : sep ≠ []) :
    ∀ (n : Nat) (s : List Char), sep.isPrefixOf (s.drop n) = true →
      containsSub s sep = true := by
  intro n
  induction n with
  | zero =>
    intro s h
    rw [List.drop_zero] at h
    cases s with
    | nil => rw [containsSub]; exact h
    | cons a t => rw [containsSub]; simp [h]
  | succ n ih =>
    intro s h
    cases s with
    | nil =>
      rw [List.drop_nil] at h
      cases sep with
      | nil => exact absurd rfl hsep
      | cons x xs => simp [List.isPrefixOf] at h
    | cons a t =>
      rw [List.drop_succ_cons] at h
      rw [containsSub]
      simp [ih t h]

/-- Lemma: `afterFirstSep` succeeds exactly when the separator occurs. -/
theorem afterFirstSep_isSome_eq (sep : List Char) :
    ∀ s : List Char, (afterFirstSep s sep).isSome = containsSub s sep := by
  intro s
  induction s with
  | nil =>
    rw [afterFirstSep, containsSub]
    by_cases h : sep.isPrefixOf ([] : List Char) = true
    · simp [h]
    · simp [h]
  | cons a t ih =>
    rw [afterFirstSep, containsSub]
    by_cases h : sep.isPrefixOf (a :: t) = true
    · simp [h]
    · simp [h, ih]

/-! ### Claims about the converter -/

/-- Claim C5 (code bug witness): a non-empty line inside a code block is
emitted verbatim as one Courier New, 10-point, No-Spacing paragraph with
no heading or list interpretation; but on an empty line inside a code
block the converter raises `IndexError` (`p.runs[0]` on a paragraph that
python-docx created without any run), instead of emitting an empty
fixed-width paragraph as the specification describes. -/
theorem code_block_line_behaviour :
    convertLines ["```".data, "# code line".data, "```".data] =
      Except.ok [Elem.codeParagraph "# code line".data
        "No Spacing".data "Courier New".data 10] ∧
    convertLines ["```".data, [], "```".data] =
      Except.error ConvError.runsIndexError := by
  constructor
  · decide
  · decide

/-- Counterexample to claim C6 as stated: the line `"```python"` is not
a line consisting of three or more backticks, yet it toggles the
code-block state (and emits nothing). -/
theorem fence_toggle_counterexample :
    processLine false "```python".data = Except.ok (true, []) ∧
    specPureFenceLine "```python".data = false := by
  constructor
  · decide
  · decide

/-- Claim C6 as amended: the state is toggled exactly by the lines whose
right-stripped form starts with three backticks; such a line emits no
content; the conversion of every file starts in the Normal state; and after an
opening fence the remaining lines are processed in the code-block state
(so an unbalanced fence leaves the rest of the file treated as code). -/
theorem fence_toggle_amended (st : Bool) (l : List Char) :
    ("```".data.isPrefixOf (pyRstrip l) = true →
      processLine st l = Except.ok (!st, [])) ∧
    (∀ out, "```".data.isPrefixOf (pyRstrip l) = false →
      processLine st l = Except.ok out → out.1 = st) ∧
    (∀ rest, processLines false ("```".data :: rest) = processLines true rest) ∧
    (∀ lines, convertLines lines = processLines false lines) := by
  refine ⟨?_, ?_, ?_, fun _ => rfl⟩
  · intro h
    simp [processLine, h]
  · intro out h hp
    rw [processLine] at hp
    simp only [h] at hp
    simp only [Bool.false_eq_true, if_false] at hp
    split at hp
    · rename_i hcode
      split at hp
      · exact absurd hp (by simp)
      · cases hp
        rfl
    · split at hp
      · cases hp; rfl
      · split at hp
        · cases hp; rfl
        · split at hp
          · cases hp; rfl
          · split at hp
            · cases hp; rfl
            · split at hp
              · cases hp; rfl
              · split at hp
                · split at hp
                  · cases hp; rfl
                  · exact absurd hp (by simp)
                · split at hp
                  · cases hp; rfl
                  · cases hp; rfl
  · intro rest
    have hfence' : processLine false "```".data = Except.ok (true, []) := by decide
    rw [processLines, hfence']
    cases h : processLines true rest with
    | error e => simp [h]
    | ok es => simp [h]

/-- Witness for the amended C6: a fence-with-info-string line toggles
from Normal into the code-block state. -/
theorem fence_toggle_amended_witness :
    processLine false "```python".data = Except.ok (true, []) :=
  (fence_toggle_amended false "```python".data).1 (by decide)

/-- Claim C9: the converter output is a pure function of the input
lines, so converting the same sequence of lines twice yields
structurally identical output (the same emitted elements in the same
order). -/
theorem convert_deterministic (lines : List (List Char)) :
    convertLines lines = convertLines lines := rfl

/-- A backtick fence marker is never a prefix of a line starting with a
hash character. -/
theorem fence_isPrefixOf_hash (rest : List Char) :
    "```".data.isPrefixOf ('#' :: rest) = false := by
  have h : "```".data = Char.ofNat 96 :: Char.ofNat 96 :: Char.ofNat 96 :: [] := rfl
  rw [h]
  exact isPrefixOf_cons_false _ _ (by decide)

/-- Claim C7: outside a code block, a line is emitted as a heading of
level `n` exactly when `1 ≤ n ≤ 4` and its right-stripped form starts
with the marker of `n` hash characters plus a space, the heading text
being the remainder after the marker; and a line starting with a hash
character that matches none of the four markers (five or more hashes, or
hashes not followed by a space) falls through to a plain paragraph. -/
theorem heading_classification (l : List Char) :
    (∀ n t, 1 ≤ n → n ≤ 4 → pyRstrip l = hashMark n ++ t →
      processLine false l = Except.ok (false, [Elem.heading n t])) ∧
    (∀ n t, processLine false l = Except.ok (false, [Elem.heading n t]) →
      1 ≤ n ∧ n ≤ 4 ∧ pyRstrip l = hashMark n ++ t) ∧
    (∀ rest, pyRstrip l = '#' :: rest →
      "# ".data.isPrefixOf (pyRstrip l) = false →
      "## ".data.isPrefixOf (pyRstrip l) = false →
      "### ".data.isPrefixOf (pyRstrip l) = false →
      "#### ".data.isPrefixOf (pyRstrip l) = false →
      processLine false l = Except.ok (false, [Elem.plain (pyRstrip l)])) := by
  refine ⟨?_, ?_, ?_⟩
  · intro n t h1 h4 hr
    interval_cases n
    · simp only [hashMark, List.replicate, List.cons_append, List.nil_append] at hr
      simp [processLine, hr, fence_isPrefixOf_hash, List.isPrefixOf]
    · simp only [hashMark, List.replicate, List.cons_append, List.nil_append] at hr
      simp [processLine, hr, fence_isPrefixOf_hash, List.isPrefixOf,
        show (' ' == '#') = false by decide]
    · simp only [hashMark, List.replicate, List.cons_append, List.nil_append] at hr
      simp [processLine, hr, fence_isPrefixOf_hash, List.isPrefixOf,
        show (' ' == '#') = false by decide]
    · simp only [hashMark, List.replicate, List.cons_append, List.nil_append] at hr
      simp [processLine, hr, fence_isPrefixOf_hash, List.isPrefixOf,
        show (' ' == '#') = false by decide]
  · intro n t h
    rw [processLine] at h
    simp only [Bool.false_eq_true, if_false, Bool.not_false] at h
    split at h
    · exact absurd h (by simp)
    · split at h
      · rename_i hg
        simp only [Except.ok.injEq, Prod.mk.injEq, List.cons.injEq,
          Elem.heading.injEq] at h
        obtain ⟨-, ⟨hn, ht⟩, -⟩ := h
        subst hn
        refine ⟨by omega, by omega, ?_⟩
        have := eq_append_drop_of_isPrefixOf hg
        rw [show hashMark 1 = "# ".data by decide]
        rw [← ht]
        exact this
      · split at h
        · rename_i hg
          simp only [Except.ok.injEq, Prod.mk.injEq, List.cons.injEq,
            Elem.heading.injEq] at h
          obtain ⟨-, ⟨hn, ht⟩, -⟩ := h
          subst hn
          refine ⟨by omega, by omega, ?_⟩
          have := eq_append_drop_of_isPrefixOf hg
          rw [show hashMark 2 = "## ".data by decide]
          rw [← ht]
          exact this
        · split at h
          · rename_i hg
            simp only [Except.ok.injEq, Prod.mk.injEq, List.cons.injEq,
              Elem.heading.injEq] at h
            obtain ⟨-, ⟨hn, ht⟩, -⟩ := h
            subst hn
            refine ⟨by omega, by omega, ?_⟩
            have := eq_append_drop_of_isPrefixOf hg
            rw [show hashMark 3 = "### ".data by decide]
            rw [← ht]
            exact this
          · split at h
            · rename_i hg
              simp only [Except.ok.injEq, Prod.mk.injEq, List.cons.injEq,
                Elem.heading.injEq] at h
              obtain ⟨-, ⟨hn, ht⟩, -⟩ := h
              subst hn
              refine ⟨by omega, by omega, ?_⟩
              have := eq_append_drop_of_isPrefixOf hg
              rw [show hashMark 4 = "#### ".data by decide]
              rw [← ht]
              exact this
            · split at h
              · exact absurd h (by simp)
              · split at h
                · split at h
                  · exact absurd h (by simp)
                  · exact absurd h (by simp)
                · split at h
                  · exact absurd h (by simp)
                  · exact absurd h (by simp)
  · intro rest hr hg1 hg2 hg3 hg4
    have hst : pyStrip (pyRstrip l) = '#' :: rest := by
      rw [pyStrip_rstrip, hr, pyLstrip, List.dropWhile_cons,
        if_neg (by decide : ¬ isPySpace '#' = true)]
    have hfence : "```".data.isPrefixOf (pyRstrip l) = false := by
      rw [hr]; exact fence_isPrefixOf_hash rest
    have hbul : "- ".data.isPrefixOf ('#' :: rest) = false := by
      rw [show "- ".data = '-' :: ' ' :: [] from rfl]
      exact isPrefixOf_cons_false _ _ (by decide)
    have hbul2 : "* ".data.isPrefixOf ('#' :: rest) = false := by
      rw [show "* ".data = '*' :: ' ' :: [] from rfl]
      exact isPrefixOf_cons_false _ _ (by decide)
    have hnum : numberedMatch ('#' :: rest) = false := by
      rw [numberedMatch, List.takeWhile_cons,
        if_neg (by decide : ¬ Char.isDigit '#' = true)]
      simp
    simp [processLine, hfence, hg1, hg2, hg3, hg4, hst, hbul, hbul2, hnum]

/-- Witness for C7: `"# Title"` becomes a level-1 heading `"Title"`. -/
theorem heading_classification_witness :
    processLine false "# Title".data =
      Except.ok (false, [Elem.heading 1 "Title".data]) :=
  (heading_classification "# Title".data).1 1 "Title".data
    (by decide) (by decide) (by decide)

/-- Claim C8: outside a code block, a line whose stripped form matches
`^\d+\. ` is emitted as one numbered-list paragraph whose text is
exactly the remainder of the stripped line after the first occurrence of
`". "` (and the match guarantees that such an occurrence exists); a
stripped line starting with a digit but containing no `". "` is emitted
as a plain paragraph instead. -/
theorem numbered_list_classification (l : List Char) :
    (∀ t, numberedMatch (pyStrip (pyRstrip l)) = true →
      afterFirstSep (pyStrip (pyRstrip l)) ". ".data = some t →
      processLine false l = Except.ok (false, [Elem.numbered t])) ∧
    (numberedMatch (pyStrip (pyRstrip l)) = true →
      (afterFirstSep (pyStrip (pyRstrip l)) ". ".data).isSome = true) ∧
    (∀ c rest, pyStrip (pyRstrip l) = c :: rest → c.isDigit = true →
      containsSub (pyStrip (pyRstrip l)) ". ".data = false →
      processLine false l = Except.ok (false, [Elem.plain (pyRstrip l)])) := by
  refine ⟨?_, ?_, ?_⟩
  · intro t hm ha
    have hm' := hm
    rw [numberedMatch, Bool.and_eq_true, Bool.not_eq_true'] at hm'
    obtain ⟨hA, -⟩ := hm'
    obtain ⟨c, rest, hstc, hcdig⟩ := takeWhile_isEmpty_false_head hA
    have hlst : pyLstrip (pyRstrip l) = c :: rest := by
      rw [← pyStrip_rstrip]; exact hstc
    obtain ⟨a, t', hline, hcase⟩ := head_of_lstrip hlst
    have hhead : ∀ x : Char, isPySpace x = false → x.isDigit = false →
        (x == a) = false := by
      intro x hx1 hx2
      rcases hcase with hsp | he
      · exact pySpace_beq_false hsp hx1
      · rw [he]
        exact digit_beq_false hcdig hx2
    have hfence : "```".data.isPrefixOf (pyRstrip l) = false := by
      rw [hline, show "```".data =
        Char.ofNat 96 :: Char.ofNat 96 :: Char.ofNat 96 :: [] from rfl]
      exact isPrefixOf_cons_false _ _ (hhead _ (by decide) (by decide))
    have hg1 : "# ".data.isPrefixOf (pyRstrip l) = false := by
      rw [hline, show "# ".data = '#' :: ' ' :: [] from rfl]
      exact isPrefixOf_cons_false _ _ (hhead '#' (by decide) (by decide))
    have hg2 : "## ".data.isPrefixOf (pyRstrip l) = false := by
      rw [hline, show "## ".data = '#' :: '#' :: ' ' :: [] from rfl]
      exact isPrefixOf_cons_false _ _ (hhead '#' (by decide) (by decide))
    have hg3 : "### ".data.isPrefixOf (pyRstrip l) = false := by
      rw [hline, show "### ".data = '#' :: '#' :: '#' :: ' ' :: [] from rfl]
      exact isPrefixOf_cons_false _ _ (hhead '#' (by decide) (by decide))
    have hg4 : "#### ".data.isPrefixOf (pyRstrip l) = false := by
      rw [hline, show "#### ".data = '#' :: '#' :: '#' :: '#' :: ' ' :: [] from rfl]
      exact isPrefixOf_cons_false _ _ (hhead '#' (by decide) (by decide))
    have hbul : "- ".data.isPrefixOf (pyStrip (pyRstrip l)) = false := by
      rw [hstc, show "- ".data = '-' :: ' ' :: [] from rfl]
      exact isPrefixOf_cons_false _ _ (digit_beq_false hcdig (by decide))
    have hbul2 : "* ".data.isPrefixOf (pyStrip (pyRstrip l)) = false := by
      rw [hstc, show "* ".data = '*' :: ' ' :: [] from rfl]
      exact isPrefixOf_cons_false _ _ (digit_beq_false hcdig (by decide))
    simp [processLine, hfence, hg1, hg2, hg3, hg4, hbul, hbul2, hm, ha]
  · intro hm
    rw [numberedMatch, Bool.and_eq_true] at hm
    obtain ⟨-, hB⟩ := hm
    rw [afterFirstSep_isSome_eq]
    exact containsSub_of_drop (by decide) _ _ hB
  · intro c rest hstc hcdig hcont
    have hlst : pyLstrip (pyRstrip l) = c :: rest := by
      rw [← pyStrip_rstrip]; exact hstc
    obtain ⟨a, t', hline, hcase⟩ := head_of_lstrip hlst
    have hhead : ∀ x : Char, isPySpace x = false → x.isDigit = false →
        (x == a) = false := by
      intro x hx1 hx2
      rcases hcase with hsp | he
      · exact pySpace_beq_false hsp hx1
      · rw [he]
        exact digit_beq_false hcdig hx2
    have hfence : "```".data.isPrefixOf (pyRstrip l) = false := by
      rw [hline, show "```".data =
        Char.ofNat 96 :: Char.ofNat 96 :: Char.ofNat 96 :: [] from rfl]
      exact isPrefixOf_cons_false _ _ (hhead _ (by decide) (by decide))
    have hg1 : "# ".data.isPrefixOf (pyRstrip l) = false := by
      rw [hline, show "# ".data = '#' :: ' ' :: [] from rfl]
      exact isPrefixOf_cons_false _ _ (hhead '#' (by decide) (by decide))
    have hg2 : "## ".data.isPrefixOf (pyRstrip l) = false := by
      rw [hline, show "## ".data = '#' :: '#' :: ' ' :: [] from rfl]
      exact isPrefixOf_cons_false _ _ (hhead '#' (by decide) (by decide))
    have hg3 : "### ".data.isPrefixOf (pyRstrip l) = false := by
      rw [hline, show "### ".data = '#' :: '#' :: '#' :: ' ' :: [] from rfl]
      exact isPrefixOf_cons_false _ _ (hhead '#' (by decide) (by decide))
    have hg4 : "#### ".data.isPrefixOf (pyRstrip l) = false := by
      rw [hline, show "#### ".data = '#' :: '#' :: '#' :: '#' :: ' ' :: [] from rfl]
      exact isPrefixOf_cons_false _ _ (hhead '#' (by decide) (by decide))
    have hcont' : containsSub (c :: rest) ". ".data = false := by
      rw [← hstc]; exact hcont
    have hbul : "- ".data.isPrefixOf (c :: rest) = false := by
      rw [show "- ".data = '-' :: ' ' :: [] from rfl]
      exact isPrefixOf_cons_false _ _ (digit_beq_false hcdig (by decide))
    have hbul2 : "* ".data.isPrefixOf (c :: rest) = false := by
      rw [show "* ".data = '*' :: ' ' :: [] from rfl]
      exact isPrefixOf_cons_false _ _ (digit_beq_false hcdig (by decide))
    have hnum : numberedMatch (c :: rest) = false := by
      have hB : ". ".data.isPrefixOf
          ((c :: rest).drop ((c :: rest).takeWhile Char.isDigit).length) = false := by
        by_contra hB'
        rw [Bool.not_eq_false] at hB'
        have hc := containsSub_of_drop (by decide) _ _ hB'
        rw [hcont'] at hc
        simp at hc
      rw [numberedMatch, hB, Bool.and_false]
    simp [processLine, hfence, hg1, hg2, hg3, hg4, hstc, hbul, hbul2, hnum]

/-- Witness for C8: `"1. First"` becomes one numbered-list paragraph
with text `"First"`. -/
theorem numbered_list_classification_witness :
    processLine false "1. First".data =
      Except.ok (false, [Elem.numbered "First".data]) :=
  (numbered_list_classification "1. First".data).1 "First".data
    (by decide) (by decide)

/-- Counterexample to claim C4 as stated: the processed filename
`"a.md.md"` ends in the Markdown extension, but the converter derives
`"a.docx.docx"`, not `"a.md.docx"`: `replace` also rewrites the interior
occurrence of `".md"`, so another part of the filename is altered. -/
theorem docx_name_counterexample :
    isMdFilename "a.md.md".data = true ∧
    docxName "a.md.md".data = "a.docx.docx".data ∧
    docxName "a.md.md".data ≠ specDocxName "a.md.md".data := by
  refine ⟨by decide, by decide, by decide⟩

/-- If `".md"` is not a prefix of `c :: stem`, it is not a prefix of
`(c :: stem) ++ ".md"` either: an occurrence of `".md"` cannot straddle
the boundary before the appended extension, because the extension starts
with `'.'` while the pattern continues with `'m'` and `'d'`. -/
theorem md_guard (c : Char) (stem : List Char)
    (hpre : ".md".data.isPrefixOf (c :: stem) = false) :
    ".md".data.isPrefixOf ((c :: stem) ++ ".md".data) = false := by
  cases stem with
  | nil =>
    rw [show ".md".data = '.' :: 'm' :: 'd' :: [] from rfl]
    simp [List.isPrefixOf, show ('m' == '.') = false by decide]
  | cons d stem2 =>
    cases stem2 with
    | nil =>
      rw [show ".md".data = '.' :: 'm' :: 'd' :: [] from rfl]
      simp [List.isPrefixOf, show ('d' == '.') = false by decide]
    | cons e rest =>
      rw [show ".md".data = '.' :: 'm' :: 'd' :: [] from rfl] at hpre ⊢
      simp [List.isPrefixOf] at hpre ⊢
      exact hpre

/-- Claim C4 as amended: the derived output filename is the input
filename with every occurrence of `".md"` replaced by `".docx"`; in
particular, when `".md"` occurs in the filename only as the trailing
extension, the output filename is exactly the input with that extension
replaced. -/
theorem docx_name_single_occurrence (stem : List Char)
    (h : containsSub stem ".md".data = false) :
    docxName (stem ++ ".md".data) = stem ++ ".docx".data := by
  revert h
  induction stem with
  | nil =>
    intro _
    decide
  | cons c stem' ih =>
    intro h
    rw [containsSub, Bool.or_eq_false_iff] at h
    obtain ⟨hpre, hrest⟩ := h
    have hguard := md_guard c stem' hpre
    rw [List.cons_append] at hguard
    have ih' := ih hrest
    rw [docxName, pyReplace] at ih'
    rw [docxName, pyReplace]
    simp only [List.cons_append, List.length_cons]
    rw [replaceFuel]
    rw [hguard]
    simp only [Bool.false_and, Bool.false_eq_true, if_false]
    exact congrArg (List.cons c) ih'

/-- Witness for the amended C4 on the filename `"guide.md"`. -/
theorem docx_name_single_occurrence_witness :
    docxName ("guide".data ++ ".md".data) = "guide".data ++ ".docx".data :=
  docx_name_single_occurrence "guide".data (by decide)
